import Mathlib

/-!
Verification of the kanban task-state manager (`src/hooks/useKanban.ts`)
and the persistent key-value store (`src/hooks/useLocalStorage.ts`).

The manager's React state pair `(tasks, history)` is embedded as the
structure `KanbanState`; every mutation of the source becomes a pure
function `KanbanState → KanbanState`, with the two external inputs of
`addTask` (`crypto.randomUUID()` and `Date.now()`) passed as parameters.
`undo` returns the new state together with its boolean result.
-/

namespace Kanban

/-- Source `type TaskStatus = 'todo' | 'in-progress' | 'done'` from `types.ts`. -/
inductive TaskStatus where
  | todo
  | inProgress
  | done
deriving DecidableEq

/-- The `Task` interface from `types.ts`. -/
structure Task where
  id : String
  title : String
  status : TaskStatus
  createdAt : Nat
deriving DecidableEq

/-- The manager's state: the canonical task list and the undo history
(the two `useLocalStorage` cells of `useKanban`). -/
structure KanbanState where
  tasks : List Task
  history : List (List Task)
deriving DecidableEq

/-- `const MAX_HISTORY = 25`. -/
def MAX_HISTORY : Nat := 25

/-- JavaScript `String.prototype.trim`: strip leading and trailing
whitespace.  Written over the character list so that it evaluates by
`decide` (the relevant whitespace for the spec's examples is ASCII,
where `Char.isWhitespace` agrees with the JS whitespace class). -/
def jsTrim (s : String) : String :=
  String.mk (((s.data.dropWhile Char.isWhitespace).reverse.dropWhile Char.isWhitespace).reverse)

/-- Source `saveToHistory`: append the current task list to the history, then
trim the oldest entries when the bound is exceeded
(`newHistory.slice(-MAX_HISTORY)` keeps the newest `MAX_HISTORY` entries,
i.e. drops `newHistory.length - MAX_HISTORY` from the front). -/
def saveToHistory (prev : List (List Task)) (currentTasks : List Task) : List (List Task) :=
  let newHistory := prev ++ [currentTasks]
  if MAX_HISTORY < newHistory.length then
    newHistory.drop (newHistory.length - MAX_HISTORY)
  else
    newHistory

/-- Source `addTask(title)`: snapshot, then append a fresh task with trimmed
title, status `todo`, and the current time.  `freshId` stands for
`crypto.randomUUID()` and `now` for `Date.now()`. -/
def addTask (s : KanbanState) (title : String) (freshId : String) (now : Nat) : KanbanState :=
  { history := saveToHistory s.history s.tasks,
    tasks := s.tasks ++ [{ id := freshId, title := jsTrim title,
                           status := TaskStatus.todo, createdAt := now }] }

/-- Source `deleteTask(taskId)`: snapshot, then `prev.filter(t => t.id !== taskId)`. -/
def deleteTask (s : KanbanState) (taskId : String) : KanbanState :=
  { history := saveToHistory s.history s.tasks,
    tasks := s.tasks.filter (fun t => t.id != taskId) }

/-- Source `moveTask(taskId, newStatus)`: snapshot, then
`prev.map(t => t.id === taskId ? { ...t, status: newStatus } : t)`. -/
def moveTask (s : KanbanState) (taskId : String) (newStatus : TaskStatus) : KanbanState :=
  { history := saveToHistory s.history s.tasks,
    tasks := s.tasks.map (fun t => if t.id == taskId then { t with status := newStatus } else t) }

/-- Source `renameTask(taskId, newTitle)`: snapshot, then
`prev.map(t => t.id === taskId ? { ...t, title: newTitle.trim() } : t)`. -/
def renameTask (s : KanbanState) (taskId : String) (newTitle : String) : KanbanState :=
  { history := saveToHistory s.history s.tasks,
    tasks := s.tasks.map (fun t => if t.id == taskId then { t with title := jsTrim newTitle } else t) }

/-- Source `reorderTasks(reorderedTasks, saveHistory = true)`: replace the task
list wholesale; snapshot only when the flag is set. -/
def reorderTasks (s : KanbanState) (reorderedTasks : List Task) (saveHistory : Bool := true) :
    KanbanState :=
  { history := if saveHistory then saveToHistory s.history s.tasks else s.history,
    tasks := reorderedTasks }

/-- Source `undo()`: false and no change on empty history; otherwise restore the
last snapshot, drop it from the history, and return true. -/
def undo (s : KanbanState) : KanbanState × Bool :=
  match s.history.getLast? with
  | none => (s, false)
  | some previousState => ({ tasks := previousState, history := s.history.dropLast }, true)

/-- Source `getTasksByStatus(status)`: `tasks.filter(t => t.status === status)`.
Purely a read of `tasks`; it takes no setter, so in this embedding it
cannot touch the state. -/
def getTasksByStatus (s : KanbanState) (status : TaskStatus) : List Task :=
  s.tasks.filter (fun t => t.status == status)

/-- The manager's operation language, for properties quantifying over
arbitrary sequences of mutations. -/
inductive Op where
  | add (title freshId : String) (now : Nat)
  | del (taskId : String)
  | move (taskId : String) (newStatus : TaskStatus)
  | rename (taskId newTitle : String)
  | reorder (newList : List Task) (saveHistory : Bool)
  | undoOp

/-- Interpret one operation on the state (`undo`'s boolean is dropped). -/
def applyOp (s : KanbanState) : Op → KanbanState
  | Op.add title freshId now => addTask s title freshId now
  | Op.del taskId => deleteTask s taskId
  | Op.move taskId newStatus => moveTask s taskId newStatus
  | Op.rename taskId newTitle => renameTask s taskId newTitle
  | Op.reorder newList saveHistory => reorderTasks s newList saveHistory
  | Op.undoOp => (undo s).1

/-- Run a sequence of operations left to right. -/
def applyOps (s : KanbanState) (ops : List Op) : KanbanState :=
  ops.foldl applyOp s

/-- The `useLocalStorage` read-on-init path: `getItem` yields `none` for
an absent key; `item ? JSON.parse(item) : initialValue` falls back on an
absent or empty (falsy) item; a parse failure (`JSON.parse` throwing,
modelled as the deserializer returning `none`) is caught and also falls
back. -/
def readStoredValue {V : Type} (store : String → Option String) (parse : String → Option V)
    (key : String) (fallback : V) : V :=
  match store key with
  | none => fallback
  | some item =>
    if item = "" then fallback
    else
      match parse item with
      | some v => v
      | none => fallback

/-! ### Helper lemmas about `saveToHistory` and `undo` -/

/-- Unfold the length bookkeeping of a history append. -/
theorem length_append_singleton (prev : List (List Task)) (cur : List Task) :
    (prev ++ [cur]).length = prev.length + 1 := by
  simp

/-- Below the bound, the append is exact: no entry is evicted. -/
theorem saveToHistory_not_full (prev : List (List Task)) (cur : List Task)
    (h : prev.length < MAX_HISTORY) :
    saveToHistory prev cur = prev ++ [cur] := by
  simp only [saveToHistory]
  rw [if_neg]
  rw [length_append_singleton]
  omega

/-- When the history is exactly at the bound, the append evicts precisely
the oldest entry: the first element is dropped and the snapshot appended. -/
theorem saveToHistory_full (prev : List (List Task)) (cur : List Task)
    (h : prev.length = MAX_HISTORY) :
    saveToHistory prev cur = prev.drop 1 ++ [cur] := by
  simp only [saveToHistory]
  rw [if_pos]
  · have hk : (prev ++ [cur]).length - MAX_HISTORY = 1 := by
      rw [length_append_singleton]
      omega
    rw [hk, List.drop_append_of_le_length]
    rw [MAX_HISTORY] at h
    omega
  · rw [length_append_singleton]
    omega

/-- The trimmed history's length: one more than before, capped at the bound. -/
theorem saveToHistory_length (prev : List (List Task)) (cur : List Task) :
    (saveToHistory prev cur).length =
      if prev.length + 1 <= MAX_HISTORY then prev.length + 1 else MAX_HISTORY := by
  simp only [saveToHistory]
  by_cases h : MAX_HISTORY < (prev ++ [cur]).length
  · rw [if_pos h, List.length_drop, length_append_singleton]
    rw [length_append_singleton] at h
    rw [if_neg (by omega)]
    omega
  · rw [if_neg h, length_append_singleton]
    rw [length_append_singleton] at h
    rw [if_pos (by omega)]

/-- `saveToHistory` never exceeds the bound. -/
theorem saveToHistory_length_le (prev : List (List Task)) (cur : List Task) :
    (saveToHistory prev cur).length <= MAX_HISTORY := by
  rw [saveToHistory_length]
  split
  · omega
  · omega

/-- The snapshot just saved sits at the end of the new history. -/
theorem saveToHistory_eq_concat (prev : List (List Task)) (cur : List Task) :
    ∃ front, saveToHistory prev cur = front ++ [cur] := by
  simp only [saveToHistory]
  by_cases h : MAX_HISTORY < (prev ++ [cur]).length
  · rw [if_pos h]
    rw [length_append_singleton] at h
    rw [List.drop_append_of_le_length
      (by rw [length_append_singleton]; simp only [MAX_HISTORY] at h ⊢; omega)]
    exact ⟨_, rfl⟩
  · rw [if_neg h]
    exact ⟨prev, rfl⟩

/-- The last entry of the new history is the snapshot just saved. -/
theorem saveToHistory_getLast (prev : List (List Task)) (cur : List Task) :
    (saveToHistory prev cur).getLast? = some cur := by
  obtain ⟨front, hf⟩ := saveToHistory_eq_concat prev cur
  rw [hf]
  exact List.getLast?_concat _

/-- `undo` on an empty history: no change, result `false`. -/
theorem undo_nil (ts : List Task) : undo ⟨ts, []⟩ = (⟨ts, []⟩, false) := rfl

/-- `undo` on a non-empty history pops the last snapshot into the task
list and discards it from the history. -/
theorem undo_concat (ts snap : List Task) (hist : List (List Task)) :
    undo ⟨ts, hist ++ [snap]⟩ = (⟨snap, hist⟩, true) := by
  simp [undo, List.getLast?_concat, List.dropLast_concat]

/-- `undo` right after a `saveToHistory` restores exactly the saved
snapshot and returns `true`. -/
theorem undo_saveToHistory (ts cur : List Task) (prev : List (List Task)) :
    undo ⟨ts, saveToHistory prev cur⟩ =
      (⟨cur, (saveToHistory prev cur).dropLast⟩, true) := by
  obtain ⟨front, hf⟩ := saveToHistory_eq_concat prev cur
  rw [hf, undo_concat, List.dropLast_concat]

/-! ### Claim theorems -/

/-- C1: `undo()` immediately after any single snapshot-saving mutation
(`addTask`, `deleteTask`, `moveTask`, `renameTask`, `reorderTasks` with the
flag true) restores the task list to exactly the pre-mutation value and
returns `true`; `undo()` on an empty history returns `false` and leaves the
task list unchanged; on a non-empty history `undo` pops the most recent
snapshot, which is discarded (no redo). -/
theorem undo_after_single_mutation (s : KanbanState)
    (title freshId taskId newTitle : String) (now : Nat)
    (newStatus : TaskStatus) (newList : List Task)
    (ts snap : List Task) (hist : List (List Task)) :
    ((undo (addTask s title freshId now)).1.tasks = s.tasks
      ∧ (undo (addTask s title freshId now)).2 = true)
  ∧ ((undo (deleteTask s taskId)).1.tasks = s.tasks
      ∧ (undo (deleteTask s taskId)).2 = true)
  ∧ ((undo (moveTask s taskId newStatus)).1.tasks = s.tasks
      ∧ (undo (moveTask s taskId newStatus)).2 = true)
  ∧ ((undo (renameTask s taskId newTitle)).1.tasks = s.tasks
      ∧ (undo (renameTask s taskId newTitle)).2 = true)
  ∧ ((undo (reorderTasks s newList true)).1.tasks = s.tasks
      ∧ (undo (reorderTasks s newList true)).2 = true)
  ∧ undo ⟨ts, []⟩ = (⟨ts, []⟩, false)
  ∧ undo ⟨ts, hist ++ [snap]⟩ = (⟨snap, hist⟩, true) := by
  refine ⟨⟨?_, ?_⟩, ⟨?_, ?_⟩, ⟨?_, ?_⟩, ⟨?_, ?_⟩, ⟨?_, ?_⟩,
    undo_nil ts, undo_concat ts snap hist⟩ <;>
    simp [addTask, deleteTask, moveTask, renameTask, reorderTasks, undo_saveToHistory]

/-- C3: `reorderTasks(newList, false)` replaces the canonical list with
`newList` and leaves the history length unchanged; `reorderTasks(newList,
true)` replaces the list and appends exactly one snapshot, the pre-call
task list: the history's last element afterwards is the pre-call list, the
new history is exactly the old one with that snapshot appended whenever the
history is below the bound, and otherwise the length is capped by the FIFO
eviction of the bound. -/
theorem reorderTasks_snapshot_flag (s : KanbanState) (newList : List Task) :
    ((reorderTasks s newList false).tasks = newList
      ∧ (reorderTasks s newList false).history.length = s.history.length)
  ∧ ((reorderTasks s newList true).tasks = newList
      ∧ (reorderTasks s newList true).history.getLast? = some s.tasks
      ∧ (reorderTasks s newList true).history.length =
          min (s.history.length + 1) MAX_HISTORY
      ∧ (s.history.length < MAX_HISTORY →
          (reorderTasks s newList true).history = s.history ++ [s.tasks])) := by
  refine ⟨⟨rfl, rfl⟩, rfl, ?_, ?_, ?_⟩
  · simpa [reorderTasks] using saveToHistory_getLast s.history s.tasks
  · show (saveToHistory s.history s.tasks).length = _
    rw [saveToHistory_length, Nat.min_def]
  · intro h
    show saveToHistory s.history s.tasks = _
    exact saveToHistory_not_full s.history s.tasks h

/-- C3 witness: on the empty state, the snapshot-saving reorder appends
exactly the pre-call (empty) list. -/
theorem reorderTasks_snapshot_flag_witness :
    (0 : Nat) < MAX_HISTORY
      ∧ (reorderTasks ⟨[], []⟩ [] true).history = [] ++ [[]] :=
  ⟨by decide, (reorderTasks_snapshot_flag ⟨[], []⟩ []).2.2.2.2 (by decide)⟩

/-- C5: `addTask(title)` appends a single task with the trimmed title,
status `todo`, `createdAt` the supplied current time, and the
generator-supplied fresh id, distinct from every existing id; the
pre-mutation list is the snapshot saved. -/
theorem addTask_fresh_task (s : KanbanState) (title freshId : String) (now : Nat)
    (hfresh : freshId ∉ s.tasks.map Task.id) :
    (addTask s title freshId now).tasks =
      s.tasks ++ [{ id := freshId, title := jsTrim title,
                    status := TaskStatus.todo, createdAt := now }]
  ∧ (∀ t ∈ s.tasks, t.id ≠ freshId)
  ∧ (addTask s title freshId now).history.getLast? = some s.tasks
  ∧ jsTrim "  My Task  " = "My Task" := by
  refine ⟨rfl, ?_, ?_, by decide⟩
  · intro t ht hEq
    exact hfresh (List.mem_map.mpr ⟨t, ht, hEq⟩)
  · simpa [addTask] using saveToHistory_getLast s.history s.tasks

/-- C5 witness: a fresh id on a concrete one-task list. -/
theorem addTask_fresh_task_witness :
    ("b" ∉ ([{ id := "a", title := "x", status := TaskStatus.todo, createdAt := 0 }] :
        List Task).map Task.id)
  ∧ jsTrim "  My Task  " = "My Task" :=
  ⟨by decide,
    (addTask_fresh_task
      ⟨[{ id := "a", title := "x", status := TaskStatus.todo, createdAt := 0 }], []⟩
      " t " "b" 3 (by decide)).2.2.2⟩

/-- C6: `deleteTask(id)` saves the pre-call list as a snapshot (growing
the history by one when below the bound), removes every task with the
matching id while keeping the remaining tasks in relative order (a
sublist), removes nothing else, and on an unmatched id leaves the list
unchanged while the snapshot is still saved. -/
theorem deleteTask_noop_snapshot (s : KanbanState) (taskId : String) :
    (deleteTask s taskId).history.getLast? = some s.tasks
  ∧ (s.history.length < MAX_HISTORY →
      (deleteTask s taskId).history.length = s.history.length + 1)
  ∧ (deleteTask s taskId).tasks.Sublist s.tasks
  ∧ (∀ t ∈ (deleteTask s taskId).tasks, t.id ≠ taskId)
  ∧ (∀ t ∈ s.tasks, t.id ≠ taskId → t ∈ (deleteTask s taskId).tasks)
  ∧ ((∀ t ∈ s.tasks, t.id ≠ taskId) → (deleteTask s taskId).tasks = s.tasks) := by
  refine ⟨?_, ?_, ?_, ?_, ?_, ?_⟩
  · simpa [deleteTask] using saveToHistory_getLast s.history s.tasks
  · intro h
    show (saveToHistory s.history s.tasks).length = _
    rw [saveToHistory_not_full s.history s.tasks h]
    simp
  · exact List.filter_sublist s.tasks
  · intro t ht
    simp only [deleteTask, List.mem_filter] at ht
    simpa using ht.2
  · intro t ht hne
    simp only [deleteTask, List.mem_filter]
    exact ⟨ht, by simpa using hne⟩
  · intro h
    exact List.filter_eq_self.mpr (fun t ht => by simpa using h t ht)

/-- C6 witness: deleting an absent id from the empty state still saves the
snapshot and leaves the list unchanged. -/
theorem deleteTask_noop_snapshot_witness :
    ((0 : Nat) < MAX_HISTORY ∧ (deleteTask ⟨[], []⟩ "x").history.length = 0 + 1)
  ∧ (deleteTask ⟨[], []⟩ "x").tasks = [] :=
  ⟨⟨by decide, (deleteTask_noop_snapshot ⟨[], []⟩ "x").2.1 (by decide)⟩,
    (deleteTask_noop_snapshot ⟨[], []⟩ "x").2.2.2.2.2 (by simp)⟩

/-- C7: `deleteTask(id); undo(); deleteTask(id)` leaves the same surviving
tasks in the canonical list as a single `deleteTask(id)` on the original
state. -/
theorem delete_undo_delete_idempotent (s : KanbanState) (taskId : String) :
    (deleteTask (undo (deleteTask s taskId)).1 taskId).tasks =
      (deleteTask s taskId).tasks := by
  have h1 : (undo (deleteTask s taskId)).1.tasks = s.tasks := by
    simp [deleteTask, undo_saveToHistory]
  show (undo (deleteTask s taskId)).1.tasks.filter _ = _
  rw [h1]
  rfl

/-- C10: `addTask` is never a no-op at the manager level: for every title,
empty and whitespace-only included, it appends exactly one task (whose
title is the trimmed input, possibly empty) and saves a snapshot of the
pre-mutation list; there is no emptiness check in the manager. -/
theorem addTask_total_append (s : KanbanState) (title freshId : String) (now : Nat) :
    (addTask s title freshId now).tasks =
      s.tasks ++ [{ id := freshId, title := jsTrim title,
                    status := TaskStatus.todo, createdAt := now }]
  ∧ (addTask s title freshId now).tasks.length = s.tasks.length + 1
  ∧ (addTask s title freshId now).history.getLast? = some s.tasks
  ∧ jsTrim "" = "" ∧ jsTrim "   " = "" := by
  refine ⟨rfl, ?_, ?_, by decide, by decide⟩
  · simp [addTask]
  · simpa [addTask] using saveToHistory_getLast s.history s.tasks

/-- A single operation keeps the history within the bound. -/
theorem applyOp_history_le (s : KanbanState) (op : Op)
    (h : s.history.length ≤ MAX_HISTORY) :
    (applyOp s op).history.length ≤ MAX_HISTORY := by
  cases op with
  | add title freshId now => exact saveToHistory_length_le _ _
  | del taskId => exact saveToHistory_length_le _ _
  | move taskId newStatus => exact saveToHistory_length_le _ _
  | rename taskId newTitle => exact saveToHistory_length_le _ _
  | reorder newList saveHistory =>
    cases saveHistory
    · simpa [applyOp, reorderTasks] using h
    · simpa [applyOp, reorderTasks] using saveToHistory_length_le s.history s.tasks
  | undoOp =>
    cases hl : s.history.getLast? with
    | none => simpa [applyOp, undo, hl] using h
    | some prev =>
      simp only [applyOp, undo, hl]
      have := List.length_dropLast s.history
      omega

/-- Every operation of a sequence keeps the history within the bound. -/
theorem applyOps_history_le (ops : List Op) (s : KanbanState)
    (h : s.history.length ≤ MAX_HISTORY) :
    (applyOps s ops).history.length ≤ MAX_HISTORY := by
  induction ops generalizing s with
  | nil => exact h
  | cons op rest ih =>
    have hstep := ih (applyOp s op) (applyOp_history_le s op h)
    simpa [applyOps] using hstep

/-- C2: starting from any state whose history holds at most 25 entries,
the history holds at most 25 entries after every operation of any finite
sequence of mutations; and whenever appending a snapshot would exceed the
bound, the oldest entry (the first element) is the one evicted, keeping
the newest 25 snapshots. -/
theorem history_bounded_fifo (s : KanbanState) (ops : List Op)
    (h : s.history.length ≤ MAX_HISTORY) :
    (∀ n, (applyOps s (ops.take n)).history.length ≤ MAX_HISTORY)
  ∧ (∀ cur : List Task, s.history.length = MAX_HISTORY →
      saveToHistory s.history cur = s.history.drop 1 ++ [cur]
        ∧ (saveToHistory s.history cur).length = MAX_HISTORY) := by
  refine ⟨fun n => applyOps_history_le _ _ h, fun cur hful => ⟨saveToHistory_full _ _ hful, ?_⟩⟩
  rw [saveToHistory_length, hful, if_neg (by omega)]

/-- C2 witness: one deletion from the empty state stays within the bound. -/
theorem history_bounded_fifo_witness :
    ((⟨[], []⟩ : KanbanState).history.length ≤ MAX_HISTORY)
  ∧ (applyOps ⟨[], []⟩ ([Op.del "x"].take 1)).history.length ≤ MAX_HISTORY :=
  ⟨by decide, (history_bounded_fifo ⟨[], []⟩ [Op.del "x"] (by decide)).1 1⟩

/-- C4: when the list contains a task with the given id (ids being unique,
per the data-model invariant), `moveTask(id, newStatus)` changes only that
task's status: the list keeps its length, the moved task keeps its index
and its other fields, and every other position is unchanged by value. -/
theorem moveTask_status_only (s : KanbanState) (taskId : String)
    (newStatus : TaskStatus) (hnodup : (s.tasks.map Task.id).Nodup)
    (i : Nat) (hi : i < s.tasks.length)
    (hid : (s.tasks.get ⟨i, hi⟩).id = taskId) :
    (moveTask s taskId newStatus).tasks.length = s.tasks.length
  ∧ (moveTask s taskId newStatus).tasks[i]? =
      some { s.tasks.get ⟨i, hi⟩ with status := newStatus }
  ∧ (∀ j, j < s.tasks.length → j ≠ i →
      (moveTask s taskId newStatus).tasks[j]? = s.tasks[j]?) := by
  refine ⟨by simp [moveTask], ?_, ?_⟩
  · simp only [moveTask, List.getElem?_map, List.getElem?_eq_getElem hi,
      Option.map_some', List.get_eq_getElem]
    rw [if_pos (by simpa using hid)]
  · intro j hj hne
    have hjid : (s.tasks.get ⟨j, hj⟩).id ≠ taskId := by
      intro hEq
      have hinj := List.nodup_iff_injective_get.mp hnodup
      have hmap : (s.tasks.map Task.id).get ⟨i, by simpa using hi⟩ =
          (s.tasks.map Task.id).get ⟨j, by simpa using hj⟩ := by
        simp only [List.get_eq_getElem, List.getElem_map]
        rw [show s.tasks[i] = s.tasks.get ⟨i, hi⟩ from rfl,
          show s.tasks[j] = s.tasks.get ⟨j, hj⟩ from rfl, hid, hEq]
      have hfin := hinj hmap
      simp only [Fin.mk.injEq] at hfin
      exact hne hfin.symm
    simp only [moveTask, List.getElem?_map, List.getElem?_eq_getElem hj,
      Option.map_some', List.get_eq_getElem]
    rw [if_neg (by simpa using hjid)]

/-- C4 witness: moving task "a" to done in a concrete two-task list leaves
the second task untouched. -/
theorem moveTask_status_only_witness :
    ((([⟨"a", "x", TaskStatus.todo, 0⟩, ⟨"b", "y", TaskStatus.done, 1⟩] :
        List Task).map Task.id).Nodup)
  ∧ (moveTask ⟨[⟨"a", "x", TaskStatus.todo, 0⟩, ⟨"b", "y", TaskStatus.done, 1⟩], []⟩
      "a" TaskStatus.done).tasks[1]? =
      ([⟨"a", "x", TaskStatus.todo, 0⟩, ⟨"b", "y", TaskStatus.done, 1⟩] : List Task)[1]? :=
  ⟨by decide,
    (moveTask_status_only
      ⟨[⟨"a", "x", TaskStatus.todo, 0⟩, ⟨"b", "y", TaskStatus.done, 1⟩], []⟩
      "a" TaskStatus.done (by decide) 0 (by decide) (by decide)).2.2 1
      (by decide) (by decide)⟩

/-- C8: `tasksByStatus(s)` returns exactly the tasks of the canonical list
whose status equals `s`, in the same relative order (a sublist with the
full multiplicity of matching tasks and none of the others); the embedding
of the query is a pure function of the state, so it touches neither the
canonical list nor the history. -/
theorem getTasksByStatus_pure_filter (s : KanbanState) (st : TaskStatus) :
    (getTasksByStatus s st).Sublist s.tasks
  ∧ (∀ t ∈ getTasksByStatus s st, t.status = st)
  ∧ (∀ t ∈ s.tasks, t.status = st → t ∈ getTasksByStatus s st)
  ∧ (∀ t : Task, (getTasksByStatus s st).count t =
      if t.status = st then s.tasks.count t else 0) := by
  refine ⟨List.filter_sublist _, ?_, ?_, ?_⟩
  · intro t ht
    simp only [getTasksByStatus, List.mem_filter] at ht
    simpa using ht.2
  · intro t ht hst
    simp only [getTasksByStatus, List.mem_filter]
    exact ⟨ht, by simpa using hst⟩
  · intro t
    by_cases hst : t.status = st
    · rw [if_pos hst]
      exact List.count_filter (by simpa using hst)
    · rw [if_neg hst]
      refine List.count_eq_zero.mpr fun hmem => ?_
      exact hst (by simpa using (List.mem_filter.mp hmem).2)

/-- C8 witness: the only todo task of a concrete singleton list is
returned by the query. -/
theorem getTasksByStatus_pure_filter_witness :
    (⟨"a", "x", TaskStatus.todo, 0⟩ : Task) ∈
      getTasksByStatus ⟨[⟨"a", "x", TaskStatus.todo, 0⟩], []⟩ TaskStatus.todo :=
  (getTasksByStatus_pure_filter ⟨[⟨"a", "x", TaskStatus.todo, 0⟩], []⟩
    TaskStatus.todo).2.2.1 ⟨"a", "x", TaskStatus.todo, 0⟩ (by decide) rfl

/-- C9: the key-value store's read returns the deserialized stored value
when one is present under the key and deserializes without error, and the
fallback otherwise (key absent, or the deserializer fails); the read is a
total function, so no exception reaches the caller.  The hypothesis that
the deserializer rejects the empty string holds for `JSON.parse`, under
which the code's falsy-item shortcut agrees with the contract. -/
theorem readStoredValue_fallback {V : Type} (store : String → Option String)
    (parse : String → Option V) (key item : String) (fallback v : V)
    (hempty : parse "" = none) :
    (store key = none → readStoredValue store parse key fallback = fallback)
  ∧ (store key = some item → parse item = some v →
      readStoredValue store parse key fallback = v)
  ∧ (store key = some item → parse item = none →
      readStoredValue store parse key fallback = fallback) := by
  refine ⟨fun habs => by simp [readStoredValue, habs], ?_, ?_⟩
  · intro hpresent hparse
    by_cases hnil : item = ""
    · rw [hnil] at hparse
      rw [hempty] at hparse
      exact absurd hparse (by simp)
    · simp [readStoredValue, hpresent, hnil, hparse]
  · intro hpresent hparse
    by_cases hnil : item = ""
    · simp [readStoredValue, hpresent, hnil]
    · simp [readStoredValue, hpresent, hnil, hparse]

/-- C9 witness: a concrete store holding "5" under "a", with a decoder
that rejects the empty string, reads back the decoded value. -/
theorem readStoredValue_fallback_witness :
    ((fun str => if str = "5" then some 7 else none) "" = (none : Option Nat))
  ∧ readStoredValue (fun k => if k = "a" then some "5" else none)
      (fun str => if str = "5" then some 7 else none) "a" 0 = 7 :=
  ⟨by decide,
    (readStoredValue_fallback (fun k => if k = "a" then some "5" else none)
      (fun str => if str = "5" then some 7 else none) "a" "5" 0 7
      (by decide)).2.1 (by decide) (by decide)⟩

end Kanban
